import Mathlib

/-!
Verification development for the `srec-rs` S-record parsing and memory-layout
library (`src/lib.rs`, `src/record.rs`).

Modelling conventions:
* Machine integers are modelled as `Nat` together with explicit reductions
  modulo `2^32` (for `u32`) and `2^64` (for `usize`) exactly where the source
  performs a cast or where two's-complement wrap-around can occur; arithmetic
  follows the release-profile (wrapping) semantics of the source language.
* Rust strings are modelled as `List Char`; character indexing in the source
  is byte indexing, which coincides with character indexing for ASCII input.
* Fallible operations return `Option`; a run-time fault of the source
  (out-of-bounds slice or index) is modelled by the `panic` outcome of `PRes`.
-/

namespace Srec

/-- `2^32`, the modulus of `u32` arithmetic. -/
def w32 : Nat := 4294967296

/-- `2^64`, the modulus of `usize` arithmetic (64-bit target). -/
def w64 : Nat := 18446744073709551616

/-- Wrapping `u32` subtraction `x - y` for `u32` values `x y < w32`. -/
def sub32 (x y : Nat) : Nat := (x + w32 - y) % w32

/-- Wrapping `usize` subtraction `x - y` for `usize` values `x y < w64`. -/
def sub64 (x y : Nat) : Nat := (x + w64 - y) % w64

/-- The error enumeration of `src/lib.rs` lines 9-18. -/
inductive Error where
  | CheckSumError
  | DataLengthError
  | UnexpectedCharacter
  | SrecFileError
deriving DecidableEq

/-- Outcome of running a fallible source operation: normal return, `Err`, or a
run-time panic (the source's out-of-bounds faults). -/
inductive PRes (α : Type) where
  | ok (val : α)
  | err (e : Error)
  | panic
deriving DecidableEq

/-- Record data field, `src/record.rs` lines 11-16 (`Data<T>`).  Payload bytes
are `Nat`s below `256`. -/
structure Data (T : Type) where
  address : T
  data : List Nat
deriving DecidableEq

/-- The address union of `src/record.rs` lines 18-26.  `Address24` is stored in
a 32-bit cell in the source (`pub type Address24 = u32`). -/
inductive Address where
  | Address16 (a : Nat)
  | Address24 (a : Nat)
  | Address32 (a : Nat)
deriving DecidableEq

/-- `u16::to_le_bytes` of a `u16` value `n < 2^16`. -/
def u16_le (n : Nat) : List Nat := [n % 256, n / 256 % 256]

/-- `u16::to_be_bytes` of a `u16` value `n < 2^16`. -/
def u16_be (n : Nat) : List Nat := [n / 256 % 256, n % 256]

/-- `u32::to_le_bytes` of a `u32` value `n < 2^32`. -/
def u32_le (n : Nat) : List Nat :=
  [n % 256, n / 256 % 256, n / 65536 % 256, n / 16777216 % 256]

/-- `u32::to_be_bytes` of a `u32` value `n < 2^32`. -/
def u32_be (n : Nat) : List Nat :=
  [n / 16777216 % 256, n / 65536 % 256, n / 256 % 256, n % 256]

/-- `Address::to_le_bytes`, `src/record.rs` lines 29-35.  The 16-bit variant
uses the two-byte `u16` encoding; the 24-bit variant is stored in (and encoded
from) a full `u32` cell, hence four bytes. -/
def Address.to_le_bytes : Address → List Nat
  | .Address16 a => u16_le a
  | .Address24 a => u32_le a
  | .Address32 a => u32_le a

/-- `Address::to_be_bytes`, `src/record.rs` lines 37-43. -/
def Address.to_be_bytes : Address → List Nat
  | .Address16 a => u16_be a
  | .Address24 a => u32_be a
  | .Address32 a => u32_be a

/-- Reading a little-endian byte sequence back as an unsigned integer
(the reinterpretation used by the round-trip property). -/
def leValue (bs : List Nat) : Nat := bs.foldr (fun b acc => b + 256 * acc) 0

/-- Reading a big-endian byte sequence back as an unsigned integer. -/
def beValue (bs : List Nat) : Nat := bs.foldl (fun acc b => 256 * acc + b) 0

/-- The record enumeration of `src/record.rs` lines 47-68.  The source stores
the `S0` header as the `String` produced by `String::from_utf8_lossy`; here the
raw header bytes are kept (no property below inspects the lossy conversion). -/
inductive Record where
  | S0 (header : List Nat)
  | S1 (d : Data Nat)
  | S2 (d : Data Nat)
  | S3 (d : Data Nat)
  | S4
  | S5 (count : Nat)
  | S6 (count : Nat)
  | S7 (address : Nat)
  | S8 (address : Nat)
  | S9 (address : Nat)
deriving DecidableEq

/-- The ASCII subset of the Unicode `White_Space` class used by `str::trim`
(the model is faithful for ASCII input lines). -/
def rustIsWhitespace (c : Char) : Bool :=
  c = ' ' || c = '\t' || c = '\n' || c = '\x0b' || c = '\x0c' || c = '\r'

/-- `str::trim`, `src/record.rs` line 73: drop whitespace from both ends. -/
def rustTrim (cs : List Char) : List Char :=
  ((cs.dropWhile rustIsWhitespace).reverse.dropWhile rustIsWhitespace).reverse

/-- The numeric value of one hexadecimal digit, as accepted by
`u8::from_str_radix(_, 16)`. -/
def hexDigitVal (c : Char) : Option Nat :=
  if '0' ≤ c ∧ c ≤ '9' then some (c.toNat - '0'.toNat)
  else if 'a' ≤ c ∧ c ≤ 'f' then some (10 + (c.toNat - 'a'.toNat))
  else if 'A' ≤ c ∧ c ≤ 'F' then some (10 + (c.toNat - 'A'.toNat))
  else none

/-- `u8::from_str_radix(s, 16).unwrap_or(0)` for the two-character slice
`s = [c1, c2]` (`src/record.rs` line 81): two hex digits give their value; a
leading `+` followed by one hex digit is also accepted by `from_str_radix`;
every other combination is an `Err`, turned into the byte `0` by `unwrap_or`. -/
def hexPairOr0 (c1 c2 : Char) : Nat :=
  match hexDigitVal c1, hexDigitVal c2 with
  | some v1, some v2 => 16 * v1 + v2
  | _, _ => if c1 = '+' then (hexDigitVal c2).getD 0 else 0

/-- The byte-decoding loop of `src/record.rs` lines 79-82, literally: for each
index `i = 2, 4, 6, …` below the line length, the source slices
`record[i..i + 2]` (a panic, modelled `none`, when `i + 2` exceeds the length,
which happens exactly when the line length is odd) and parses the pair with
fallback byte `0`. -/
def decodeFrom (cs : List Char) (i : Nat) : Option (List Nat) :=
  if h : i < cs.length then
    if h2 : i + 2 ≤ cs.length then
      match decodeFrom cs (i + 2) with
      | some rest => some (hexPairOr0 (cs.get ⟨i, h⟩) (cs.get ⟨i + 1, by omega⟩) :: rest)
      | none => none
    else none
  else some []
termination_by cs.length - i

/-- Structural form of the same loop, walking the character suffix two at a
time; `decodeFrom_eq` below proves it equal to the index-based `decodeFrom`. -/
def pairsOpt : List Char → Option (List Nat)
  | [] => some []
  | [_] => none
  | c1 :: c2 :: rest =>
    match pairsOpt rest with
    | some bs => some (hexPairOr0 c1 c2 :: bs)
    | none => none

/-- Rust slice `&bs[a..b]`: defined when `a ≤ b ≤ bs.len()`, a panic
(modelled `none`) otherwise. -/
def slice (bs : List Nat) (a b : Nat) : Option (List Nat) :=
  if a ≤ b ∧ b ≤ bs.length then some ((bs.drop a).take (b - a)) else none

/-- Lift the `Option` outcome of a record-body extraction into `PRes`:
`none` is an out-of-bounds fault of the source. -/
def lift : Option Record → PRes Record
  | some r => .ok r
  | none => .panic

/-- `Record::parse_from_str`, `src/record.rs` lines 72-152.

The source trims the line, requires the `S` marker and at least two
characters, decodes all remaining characters as hex pairs (`decodeFrom`),
validates the wrapped `u32` byte sum against `0xFF`, and then dispatches on
the type digit `record[1..2]`, slicing address/count/payload fields out of the
decoded bytes.  In every extraction, `bytes.len() - 1` is the source's
(wrapping) `usize` subtraction; for `bytes = []` the source value wraps to a
huge bound and the slice panics, exactly as the truncated `Nat` subtraction
here makes `slice` return `none` via its `a ≤ b` guard. -/
def parseFromStr (line : List Char) : PRes Record :=
  let record := rustTrim line
  if record.head? ≠ some 'S' ∨ record.length < 2 then .err .DataLengthError
  else
    match decodeFrom record 2 with
    | none => .panic
    | some bytes =>
      if bytes.sum % w32 % 256 ≠ 255 then .err .CheckSumError
      else
        let t := record.get? 1
        if t = some '0' then
          lift (do
            let d ← slice bytes 2 (bytes.length - 1)
            pure (.S0 d))
        else if t = some '1' then
          lift (do
            let b1 ← bytes.get? 1
            let b2 ← bytes.get? 2
            let d ← slice bytes 3 (bytes.length - 1)
            pure (.S1 ⟨(b1 <<< 8) ||| b2, d⟩))
        else if t = some '2' then
          lift (do
            let b1 ← bytes.get? 1
            let b2 ← bytes.get? 2
            let b3 ← bytes.get? 3
            let d ← slice bytes 4 (bytes.length - 1)
            pure (.S2 ⟨(b1 <<< 16) ||| (b2 <<< 8) ||| b3, d⟩))
        else if t = some '3' then
          lift (do
            let b1 ← bytes.get? 1
            let b2 ← bytes.get? 2
            let b3 ← bytes.get? 3
            let b4 ← bytes.get? 4
            let d ← slice bytes 5 (bytes.length - 1)
            pure (.S3 ⟨(b1 <<< 24) ||| (b2 <<< 16) ||| (b3 <<< 8) ||| b4, d⟩))
        else if t = some '4' then .ok .S4
        else if t = some '5' then
          lift (do
            let b1 ← bytes.get? 1
            let b2 ← bytes.get? 2
            pure (.S5 ((b1 <<< 8) ||| b2)))
        else if t = some '6' then
          lift (do
            let b1 ← bytes.get? 1
            let b2 ← bytes.get? 2
            let b3 ← bytes.get? 3
            pure (.S6 ((b1 <<< 16) ||| (b2 <<< 8) ||| b3)))
        else if t = some '7' then
          lift (do
            let b1 ← bytes.get? 1
            let b2 ← bytes.get? 2
            let b3 ← bytes.get? 3
            let b4 ← bytes.get? 4
            pure (.S7 ((b1 <<< 24) ||| (b2 <<< 16) ||| (b3 <<< 8) ||| b4)))
        else if t = some '8' then
          lift (do
            let b1 ← bytes.get? 1
            let b2 ← bytes.get? 2
            let b3 ← bytes.get? 3
            pure (.S8 ((b1 <<< 16) ||| (b2 <<< 8) ||| b3)))
        else if t = some '9' then
          lift (do
            let b1 ← bytes.get? 1
            let b2 ← bytes.get? 2
            pure (.S9 ((b1 <<< 8) ||| b2)))
        else .err .DataLengthError

/-- The stable sort `regions.sort_by_key(|&(addr, _)| addr)` of `src/lib.rs`
line 94.  A stable sort is extensionally unique, so Mathlib's stable
`insertionSort` models it faithfully. -/
def sortSpans (spans : List (Nat × Nat)) : List (Nat × Nat) :=
  List.insertionSort (fun x y => x.1 ≤ y.1) spans

/-- The merge loop of `src/lib.rs` lines 95-117, walking the sorted span list
with the accumulator kept in reverse order (its head is the source's
`merged.last_mut()`).  Spans are `(u32 address, usize length)` pairs.
`last_end` is the wrapping `u32` sum `*last_addr + *last_size as u32`;
`size - allowed` is the source's `usize` subtraction. -/
def mergePass (MAX : Nat) : List (Nat × Nat) → List (Nat × Nat) → List (Nat × Nat)
  | acc, [] => acc.reverse
  | [], (a, s) :: rest => mergePass MAX [(a, s)] rest
  | (la, ls) :: tl, (a, s) :: rest =>
    let lastEnd := (la + ls % w32) % w32
    if a ≤ lastEnd ∧ sub32 lastEnd la < MAX then
      let newEnd := max ((a + s % w32) % w32) lastEnd
      let regionSize := sub32 newEnd la
      if regionSize ≤ MAX then
        mergePass MAX ((la, regionSize) :: tl) rest
      else
        let allowed := sub32 MAX (ls % w32)
        mergePass MAX ((a, sub64 s allowed) :: (la, MAX) :: tl) rest
    else
      mergePass MAX ((a, s) :: (la, ls) :: tl) rest

/-- One iteration step of the splitting `while` loop of `src/lib.rs` lines
122-129, with explicit fuel.  `size as u32 > MAX` is `size % w32 > MAX`;
inside the loop that guard gives `size > MAX`, so the `usize` subtraction
`size -= MAX` never underflows and plain `Nat` subtraction is exact;
`addr += MAX` is wrapping `u32` addition. -/
def splitGo (MAX : Nat) : Nat → Nat → Nat → List (Address × Nat)
  | 0, _, _ => []
  | fuel + 1, addr, size =>
    if size % w32 > MAX then
      (Address.Address32 addr, MAX) :: splitGo MAX fuel ((addr + MAX) % w32) (size - MAX)
    else if size > 0 then [(Address.Address32 addr, size)]
    else []

/-- The split pass applied to one merged region, `src/lib.rs` lines 121-129.
Each loop iteration strictly decreases `size` (by `MAX ≥ 1`), so fuel
`size + 1` is sufficient whenever `MAX > 0`.  For `MAX = 0` the source's
`while` loop never terminates on a non-empty region, so `from_srec` never
returns; the fuel cutoff then produces a truncation that no theorem below
relies on. -/
def splitChunks (MAX addr size : Nat) : List (Address × Nat) :=
  splitGo MAX (size + 1) addr size

/-- The whole region-composer phase of `SRecord::from_srec`
(`src/lib.rs` lines 93-130): stable-sort the collected spans by address,
run the merge loop, then split every surviving region. -/
def buildLayout (spans : List (Nat × Nat)) (MAX : Nat) : List (Address × Nat) :=
  (mergePass MAX [] (sortSpans spans)).foldl
    (fun acc p => acc ++ splitChunks MAX p.1 p.2) []

instance : IsTotal (Nat × Nat) (fun x y => x.1 ≤ y.1) :=
  ⟨fun a b => Nat.le_total a.1 b.1⟩

instance : IsTrans (Nat × Nat) (fun x y => x.1 ≤ y.1) :=
  ⟨fun _ _ _ => Nat.le_trans⟩

/-- The start address of a layout region as a plain integer. -/
def regionAddr : Address × Nat → Nat
  | (.Address16 a, _) => a
  | (.Address24 a, _) => a
  | (.Address32 a, _) => a

/-- Modelled from the spec: "regions are produced in non-decreasing address
order". -/
def regionsOrdered (l : List (Address × Nat)) : Prop :=
  List.Chain' (fun r1 r2 => regionAddr r1 ≤ regionAddr r2) l

/-- Modelled from the spec: "no two regions overlapping" — the half-open
address intervals of any two regions are disjoint. -/
def regionsDisjoint (l : List (Address × Nat)) : Prop :=
  List.Pairwise
    (fun r1 r2 => regionAddr r1 + r1.2 ≤ regionAddr r2 ∨ regionAddr r2 + r2.2 ≤ regionAddr r1) l

/-- Modelled from the spec (§4.3 contract, claim C1): the layout produced by
the region composer is ordered, non-overlapping, and capped at
`max_region_size`. -/
def specLayoutContract (spans : List (Nat × Nat)) (MAX : Nat) : Prop :=
  regionsOrdered (buildLayout spans MAX) ∧ regionsDisjoint (buildLayout spans MAX) ∧
    ∀ r ∈ buildLayout spans MAX, r.2 ≤ MAX

/-- The parsed-image structure of `src/lib.rs` lines 21-30. -/
structure SRecord where
  record : List Record
  data_memory_layout : List (Address × Nat)
  data : List Nat
  data_length : Nat
deriving DecidableEq

/-- The per-line collection loop of `src/lib.rs` lines 69-91: parse each line,
and for every `S1`/`S2`/`S3` record append its `(address as u32, payload
length)` span and its payload bytes (`S1` addresses are `u16`, so the `u32`
cast is the identity); every record is appended to the record list. -/
def collectLines :
    List (List Char) → List Record → List (Nat × Nat) → List Nat →
    PRes (List Record × List (Nat × Nat) × List Nat)
  | [], recs, regs, data => .ok (recs, regs, data)
  | line :: rest, recs, regs, data =>
    match parseFromStr line with
    | .panic => .panic
    | .err e => .err e
    | .ok rec =>
      match rec with
      | .S1 d =>
        collectLines rest (recs ++ [.S1 d]) (regs ++ [(d.address, d.data.length)]) (data ++ d.data)
      | .S2 d =>
        collectLines rest (recs ++ [.S2 d]) (regs ++ [(d.address, d.data.length)]) (data ++ d.data)
      | .S3 d =>
        collectLines rest (recs ++ [.S3 d]) (regs ++ [(d.address, d.data.length)]) (data ++ d.data)
      | r => collectLines rest (recs ++ [r]) regs data

/-- `SRecord::from_srec`, `src/lib.rs` lines 62-140, over an already-read list
of text lines (the `BufReader` line supplier is external I/O; a read failure
would yield `Err(SrecFileError)` before any parsing and is outside the model). -/
def fromSrec (MAX : Nat) (lines : List (List Char)) : PRes SRecord :=
  match collectLines lines [] [] [] with
  | .panic => .panic
  | .err e => .err e
  | .ok (recs, regs, data) =>
    .ok { record := recs
          data_memory_layout := buildLayout regs MAX
          data := data
          data_length := data.length }

/-- `SRecord::get_data_length`, `src/lib.rs` lines 54-56. -/
def get_data_length (s : SRecord) : Nat := s.data_length

/-- `SRecord::get_data`, `src/lib.rs` lines 49-51. -/
def get_data (s : SRecord) : List Nat := s.data

/-- `SRecord::get_data_memory_layout`, `src/lib.rs` lines 44-46. -/
def get_data_memory_layout (s : SRecord) : List (Address × Nat) :=
  s.data_memory_layout

/-- The image produced by parsing the single line `S104000000FB` with
`MAX = 8`; used as a concrete witness value below. -/
def sampleImage : SRecord :=
  { record := [.S1 ⟨0, [0]⟩]
    data_memory_layout := [(.Address32 0, 1)]
    data := [0]
    data_length := 1 }

/-- Payload length contributed by one record to the data buffer: the data
bytes of `S1`/`S2`/`S3` records, nothing for the other variants. -/
def payloadLength : Record → Nat
  | .S1 d => d.data.length
  | .S2 d => d.data.length
  | .S3 d => d.data.length
  | _ => 0

/-- The hex-pair chunking of a character sequence, with the byte `0`
substituted for unparsable pairs (the reading of spec §4.2 step 3); a trailing
odd character contributes nothing. -/
def pairMap : List Char → List Nat
  | c1 :: c2 :: rest => hexPairOr0 c1 c2 :: pairMap rest
  | _ => []

/-! ### Helper lemmas -/

theorem decodeFrom_eq (cs : List Char) (i : Nat) : decodeFrom cs i = pairsOpt (cs.drop i) := by
  have hwf : ∀ n cs i, cs.length - i ≤ n → decodeFrom cs i = pairsOpt (cs.drop i) := by
    intro n
    induction n with
    | zero =>
      intro cs i hn
      rw [decodeFrom]
      have hle : cs.length ≤ i := by omega
      rw [dif_neg (by omega), List.drop_eq_nil_of_le hle]
      rfl
    | succ n ih =>
      intro cs i hn
      rw [decodeFrom]
      by_cases h : i < cs.length
      · rw [dif_pos h]
        by_cases h2 : i + 2 ≤ cs.length
        · rw [dif_pos h2, ih cs (i + 2) (by omega)]
          have hdrop : cs.drop i = cs.get ⟨i, h⟩ :: cs.drop (i + 1) :=
            List.drop_eq_getElem_cons h
          have hdrop2 : cs.drop (i + 1) = cs.get ⟨i + 1, by omega⟩ :: cs.drop (i + 2) :=
            List.drop_eq_getElem_cons (by omega)
          rw [hdrop, hdrop2]
          rfl
        · rw [dif_neg h2]
          have hdrop : cs.drop i = cs.get ⟨i, h⟩ :: cs.drop (i + 1) :=
            List.drop_eq_getElem_cons h
          have hnil : cs.drop (i + 1) = [] := List.drop_eq_nil_of_le (by omega)
          rw [hdrop, hnil]
          rfl
      · rw [dif_neg h, List.drop_eq_nil_of_le (by omega)]
        rfl
  exact hwf (cs.length - i) cs i le_rfl

theorem mod_w32_mod_256 (n : Nat) : n % w32 % 256 = n % 256 :=
  Nat.mod_mod_of_dvd n ⟨16777216, by norm_num [w32]⟩

theorem hexDigitVal_le (c : Char) (v : Nat) (h : hexDigitVal c = some v) : v ≤ 15 := by
  unfold hexDigitVal at h
  by_cases h1 : '0' ≤ c ∧ c ≤ '9'
  · rw [if_pos h1] at h
    injection h with h
    have ha : '0'.toNat ≤ c.toNat := h1.1
    have hb : c.toNat ≤ '9'.toNat := h1.2
    have e0 : '0'.toNat = 48 := rfl
    have e9 : '9'.toNat = 57 := rfl
    omega
  · rw [if_neg h1] at h
    by_cases h2 : 'a' ≤ c ∧ c ≤ 'f'
    · rw [if_pos h2] at h
      injection h with h
      have ha : 'a'.toNat ≤ c.toNat := h2.1
      have hb : c.toNat ≤ 'f'.toNat := h2.2
      have ea : 'a'.toNat = 97 := rfl
      have ef : 'f'.toNat = 102 := rfl
      omega
    · rw [if_neg h2] at h
      by_cases h3 : 'A' ≤ c ∧ c ≤ 'F'
      · rw [if_pos h3] at h
        injection h with h
        have ha : 'A'.toNat ≤ c.toNat := h3.1
        have hb : c.toNat ≤ 'F'.toNat := h3.2
        have eA : 'A'.toNat = 65 := rfl
        have eF : 'F'.toNat = 70 := rfl
        omega
      · rw [if_neg h3] at h
        exact absurd h (by simp)

theorem hexPairOr0_lt (c1 c2 : Char) : hexPairOr0 c1 c2 < 256 := by
  unfold hexPairOr0
  rcases hv1 : hexDigitVal c1 with _ | v1
  all_goals rcases hv2 : hexDigitVal c2 with _ | v2
  · simp only []
    split <;> simp_all
  · have := hexDigitVal_le c2 v2 hv2
    simp only []
    split <;> simp_all
    omega
  · simp only []
    split <;> simp_all
  · have hb1 := hexDigitVal_le c1 v1 hv1
    have hb2 := hexDigitVal_le c2 v2 hv2
    simp only []
    omega

theorem pairsOpt_even : ∀ l : List Char, l.length % 2 = 0 → pairsOpt l = some (pairMap l)
  | [], _ => rfl
  | [_], h => by simp at h
  | c1 :: c2 :: rest, h => by
    have ih := pairsOpt_even rest (by simp [List.length_cons] at h ⊢; omega)
    simp [pairsOpt, pairMap, ih]

theorem pairsOpt_odd : ∀ l : List Char, l.length % 2 = 1 → pairsOpt l = none
  | [], h => by simp at h
  | [_], _ => rfl
  | c1 :: c2 :: rest, h => by
    have ih := pairsOpt_odd rest (by simp [List.length_cons] at h ⊢; omega)
    simp [pairsOpt, ih]

theorem pairsOpt_lt :
    ∀ (l : List Char) (bs : List Nat), pairsOpt l = some bs → ∀ b ∈ bs, b < 256
  | [], bs, h => by
    injection h with h
    subst h
    simp
  | [_], bs, h => by simp [pairsOpt] at h
  | c1 :: c2 :: rest, bs, h => by
    unfold pairsOpt at h
    cases hr : pairsOpt rest with
    | none => rw [hr] at h; exact absurd h (by simp)
    | some tailbs =>
      rw [hr] at h
      injection h with h
      subst h
      intro b hb
      rcases List.mem_cons.mp hb with hb | hb
      · subst hb
        exact hexPairOr0_lt c1 c2
      · exact pairsOpt_lt rest tailbs hr b hb

theorem sum_swap :
    ∀ (l l' : List Nat) (k : Nat), l'.length = l.length →
      (∀ j, j ≠ k → l'.get? j = l.get? j) →
      l'.sum + (l.get? k).getD 0 = l.sum + (l'.get? k).getD 0
  | [], [], _, _, _ => by simp
  | [], _ :: _, _, hlen, _ => by simp at hlen
  | _ :: _, [], _, hlen, _ => by simp at hlen
  | x :: xs, y :: ys, 0, hlen, hj => by
    have hys : ys = xs := by
      apply List.ext_get?
      intro i
      have := hj (i + 1) (by omega)
      simpa using this
    subst hys
    simp [List.sum_cons]
    omega
  | x :: xs, y :: ys, k + 1, hlen, hj => by
    have hy : y = x := by
      have := hj 0 (by omega)
      simpa using this
    subst hy
    have ih := sum_swap xs ys k (by simpa using hlen) (fun j hjk => by
      have := hj (j + 1) (by simpa using hjk)
      simpa using this)
    simp only [List.sum_cons, List.get?_cons_succ]
    omega

/-! ### Claims about the record decoder -/

/-- C3 (code bug): the line `S5FF` passes the checksum (its single decoded
byte is `0xFF`), and the `S5` extraction then indexes `bytes[1]` and
`bytes[2]` out of bounds: the source panics instead of returning the
length-validation error that the claim (and spec §4.2 step 5) requires. -/
theorem c3_short_line_panics : parseFromStr ("S5FF".toList) = PRes.panic := by
  simp only [parseFromStr, decodeFrom_eq]
  rfl

/-- C7 (counterexample): on the line `S1A` the remaining character sequence
after marker and type digit has odd length, and the source's slice
`record[2..4]` is out of bounds: decoding faults instead of being total,
contradicting the claim's "including an odd number of remaining characters". -/
theorem c7_odd_tail_panics : parseFromStr ("S1A".toList) = PRes.panic := by
  simp only [parseFromStr, decodeFrom_eq]
  rfl

/-- C7 (amended): for every line with an even number of remaining characters
after the first two, the decoding loop never faults and produces exactly the
consecutive 2-character hex pairs with byte `0` substituted for unparsable
pairs; an odd number of remaining characters makes the loop fault. -/
theorem c7_hex_pairs (cs : List Char) :
    (cs.length % 2 = 0 → decodeFrom cs 2 = some (pairMap (cs.drop 2))) ∧
    (cs.length % 2 = 1 → 3 ≤ cs.length → decodeFrom cs 2 = none) := by
  constructor
  · intro h
    rw [decodeFrom_eq]
    exact pairsOpt_even _ (by simp [List.length_drop]; omega)
  · intro h hlen
    rw [decodeFrom_eq]
    exact pairsOpt_odd _ (by simp [List.length_drop]; omega)

/-- Witness for C7: an even tail (with the unparsable pair `G0` becoming the
byte `0`) decodes totally; the odd tail of `S1A` faults. -/
theorem c7_hex_pairs_witness :
    decodeFrom ("S1FFG0".toList) 2 = some [255, 0] ∧
    decodeFrom ("S1A".toList) 2 = none := by
  constructor
  · exact ((c7_hex_pairs ("S1FFG0".toList)).1 (by rfl)).trans (by rfl)
  · exact (c7_hex_pairs ("S1A".toList)).2 (by rfl) (by norm_num)

/-- C10: a trimmed line consisting of exactly the marker and one further
character decodes zero bytes, whose sum `0` fails the checksum test that runs
before any per-type processing, so the result is the checksum error. -/
theorem c10_marker_digit_only (line : List Char) (d : Char)
    (h : rustTrim line = ['S', d]) :
    parseFromStr line = PRes.err Error.CheckSumError := by
  simp only [parseFromStr, h, decodeFrom_eq]
  rfl

/-- Witness for C10 at the line `S5`. -/
theorem c10_marker_digit_only_witness :
    parseFromStr ("S5".toList) = PRes.err Error.CheckSumError :=
  c10_marker_digit_only ("S5".toList) '5' rfl

/-- C8 (counterexample): the line `SX` has a non-digit type character, yet the
source reports the checksum error, not the structural `DataLengthError`,
because the checksum test runs before the type dispatch — refuting the
claim's "regardless of the line's checksum". -/
theorem c8_checksum_precedes_type :
    parseFromStr ("SX".toList) = PRes.err Error.CheckSumError ∧
    Error.CheckSumError ≠ Error.DataLengthError := by
  constructor
  · simp only [parseFromStr, decodeFrom_eq]
    rfl
  · decide

/-- C8 (amended): a trimmed line starting with the marker, of length at least
two, whose second character is not a decimal digit, fails with the structural
`DataLengthError` provided its decoded bytes pass the checksum; otherwise the
checksum error takes precedence. -/
theorem c8_unknown_type_digit (line : List Char) (c : Char) (rest : List Char) (bs : List Nat)
    (htrim : rustTrim line = 'S' :: c :: rest)
    (hc : ¬('0' ≤ c ∧ c ≤ '9'))
    (hdec : decodeFrom ('S' :: c :: rest) 2 = some bs)
    (hsum : bs.sum % 256 = 255) :
    parseFromStr line = PRes.err Error.DataLengthError := by
  have hne : ∀ d : Char, '0' ≤ d → d ≤ '9' → c ≠ d := fun d h1 h2 he => hc (he ▸ ⟨h1, h2⟩)
  have h0 := hne '0' (by decide) (by decide)
  have h1 := hne '1' (by decide) (by decide)
  have h2 := hne '2' (by decide) (by decide)
  have h3 := hne '3' (by decide) (by decide)
  have h4 := hne '4' (by decide) (by decide)
  have h5 := hne '5' (by decide) (by decide)
  have h6 := hne '6' (by decide) (by decide)
  have h7 := hne '7' (by decide) (by decide)
  have h8 := hne '8' (by decide) (by decide)
  have h9 := hne '9' (by decide) (by decide)
  have hguard : ¬(('S' :: c :: rest).head? ≠ some 'S' ∨ ('S' :: c :: rest).length < 2) := by
    push_neg
    refine ⟨by simp, ?_⟩
    simp [List.length_cons]
  have hs : ¬(bs.sum % w32 % 256 ≠ 255) := by
    rw [mod_w32_mod_256]
    omega
  simp only [parseFromStr, htrim, hdec]
  rw [if_neg hguard, if_neg hs]
  simp only [List.get?_cons_succ, List.get?_cons_zero, Option.some.injEq]
  rw [if_neg h0, if_neg h1, if_neg h2, if_neg h3, if_neg h4, if_neg h5, if_neg h6,
    if_neg h7, if_neg h8, if_neg h9]

/-- Witness for C8 (amended) at the line `SXFF`, whose single decoded byte
`0xFF` passes the checksum. -/
theorem c8_unknown_type_digit_witness :
    parseFromStr ("SXFF".toList) = PRes.err Error.DataLengthError :=
  c8_unknown_type_digit ("SXFF".toList) 'X' ['F', 'F'] [255] rfl (by decide)
    (by rw [decodeFrom_eq]; rfl) (by norm_num)

/-- C4: decoding succeeds only when the decoded bytes sum to `255` modulo
`256`; whenever a line's bytes decode but their sum fails that test, the
result is the checksum error (for any second character, hence any type
digit); and mutating a single non-checksum byte of a checksum-valid line
without adjusting the checksum yields the checksum error. -/
theorem c4_checksum_validation :
    (∀ (line : List Char) (r : Record), parseFromStr line = .ok r →
      ∃ bs, decodeFrom (rustTrim line) 2 = some bs ∧ bs.sum % 256 = 255) ∧
    (∀ (line : List Char) (bs : List Nat),
      (rustTrim line).head? = some 'S' → 2 ≤ (rustTrim line).length →
      decodeFrom (rustTrim line) 2 = some bs → bs.sum % 256 ≠ 255 →
      parseFromStr line = .err .CheckSumError) ∧
    (∀ (line line' : List Char) (bs bs' : List Nat) (k : Nat),
      decodeFrom (rustTrim line) 2 = some bs →
      (rustTrim line').head? = some 'S' → 2 ≤ (rustTrim line').length →
      decodeFrom (rustTrim line') 2 = some bs' →
      bs.sum % 256 = 255 →
      k < bs.length → k ≠ bs.length - 1 →
      bs'.length = bs.length →
      bs'.get? k ≠ bs.get? k →
      (∀ j, j ≠ k → bs'.get? j = bs.get? j) →
      parseFromStr line' = .err .CheckSumError) := by
  have part2 : ∀ (line : List Char) (bs : List Nat),
      (rustTrim line).head? = some 'S' → 2 ≤ (rustTrim line).length →
      decodeFrom (rustTrim line) 2 = some bs → bs.sum % 256 ≠ 255 →
      parseFromStr line = .err .CheckSumError := by
    intro line bs hhead hlen hdec hsum
    have hguard : ¬((rustTrim line).head? ≠ some 'S' ∨ (rustTrim line).length < 2) := by
      push_neg
      exact ⟨hhead, by omega⟩
    simp only [parseFromStr, hdec]
    rw [if_neg hguard, if_pos (by rw [mod_w32_mod_256]; exact hsum)]
  refine ⟨?_, part2, ?_⟩
  · intro line r h
    by_cases hguard : (rustTrim line).head? ≠ some 'S' ∨ (rustTrim line).length < 2
    · rw [parseFromStr.eq_def, if_pos hguard] at h
      exact absurd h (by simp)
    · cases hd : decodeFrom (rustTrim line) 2 with
      | none =>
        rw [parseFromStr.eq_def, if_neg hguard, hd] at h
        exact absurd h (by simp)
      | some bs =>
        refine ⟨bs, rfl, ?_⟩
        by_cases hs : bs.sum % w32 % 256 ≠ 255
        · rw [parseFromStr.eq_def, if_neg hguard, hd] at h
          simp only [if_pos hs] at h
          exact absurd h (by simp)
        · rw [mod_w32_mod_256] at hs
          omega
  · intro line line' bs bs' k hdec hhead' hlen' hdec' hsum hk _hklast hlen hne hagree
    apply part2 line' bs' hhead' hlen' hdec'
    obtain ⟨bv, hbv⟩ : ∃ v, bs.get? k = some v := ⟨bs.get ⟨k, hk⟩, List.get?_eq_get hk⟩
    obtain ⟨bv', hbv'⟩ : ∃ v, bs'.get? k = some v :=
      ⟨bs'.get ⟨k, by omega⟩, List.get?_eq_get (by omega)⟩
    have hswap := sum_swap bs bs' k hlen hagree
    rw [hbv, hbv'] at hswap
    simp only [Option.getD_some] at hswap
    have hvne : bv ≠ bv' := fun he => hne (by rw [hbv, hbv', he])
    have hblt : bv < 256 :=
      pairsOpt_lt _ bs (by rw [← decodeFrom_eq]; exact hdec) bv (List.get?_mem hbv)
    have hblt' : bv' < 256 :=
      pairsOpt_lt _ bs' (by rw [← decodeFrom_eq]; exact hdec') bv' (List.get?_mem hbv')
    omega

/-- Witness for C4: the valid line `S104000000FB` decodes with byte sum `255`;
the line `S100` (byte sum `0`) fails with the checksum error; and mutating the
address byte of `S104000000FB` (giving `S104010000FB`) without adjusting the
checksum fails with the checksum error. -/
theorem c4_checksum_validation_witness :
    (∃ bs, decodeFrom (rustTrim ("S104000000FB".toList)) 2 = some bs ∧ bs.sum % 256 = 255) ∧
    parseFromStr ("S100".toList) = PRes.err Error.CheckSumError ∧
    parseFromStr ("S104010000FB".toList) = PRes.err Error.CheckSumError := by
  refine ⟨?_, ?_, ?_⟩
  · exact c4_checksum_validation.1 ("S104000000FB".toList) (.S1 ⟨0, [0]⟩)
      (by simp only [parseFromStr, decodeFrom_eq]; rfl)
  · exact c4_checksum_validation.2.1 ("S100".toList) [0] rfl (by decide)
      (by rw [decodeFrom_eq]; rfl) (by decide)
  · refine c4_checksum_validation.2.2 ("S104000000FB".toList) ("S104010000FB".toList)
      [4, 0, 0, 0, 251] [4, 1, 0, 0, 251] 1
      (by rw [decodeFrom_eq]; rfl) rfl (by decide)
      (by rw [decodeFrom_eq]; rfl) (by decide)
      (by decide) (by decide) rfl (by decide) ?_
    intro j hj
    match j with
    | 0 => rfl
    | 1 => exact absurd rfl hj
    | 2 => rfl
    | 3 => rfl
    | 4 => rfl
    | _ + 5 => rfl

/-! ### Claim C9: address byte encodings -/

/-- C9: each `Address` variant round-trips through its little- and big-endian
byte encodings; the 16-bit and 32-bit variants encode to 2 and 4 bytes, and
the 24-bit variant encodes to 4 bytes (its full `u32` storage cell). -/
theorem c9_address_roundtrip :
    (∀ n : Nat, n < 65536 →
      (Address.Address16 n).to_le_bytes.length = 2 ∧
      leValue (Address.Address16 n).to_le_bytes = n ∧
      beValue (Address.Address16 n).to_be_bytes = n) ∧
    (∀ n : Nat, n < w32 →
      (Address.Address32 n).to_le_bytes.length = 4 ∧
      leValue (Address.Address32 n).to_le_bytes = n ∧
      beValue (Address.Address32 n).to_be_bytes = n) ∧
    (∀ n : Nat, n < w32 →
      (Address.Address24 n).to_le_bytes.length = 4 ∧
      leValue (Address.Address24 n).to_le_bytes = n ∧
      beValue (Address.Address24 n).to_be_bytes = n) := by
  refine ⟨fun n hn => ⟨rfl, ?_, ?_⟩, fun n hn => ⟨rfl, ?_, ?_⟩, fun n hn => ⟨rfl, ?_, ?_⟩⟩ <;>
    simp only [Address.to_le_bytes, Address.to_be_bytes, u16_le, u16_be, u32_le, u32_be,
      leValue, beValue, List.foldr, List.foldl, w32] at * <;>
    omega

/-- Witness for C9 at the values of the source's own encoding tests. -/
theorem c9_address_roundtrip_witness :
    leValue (Address.Address16 4660).to_le_bytes = 4660 ∧
    beValue (Address.Address32 305419896).to_be_bytes = 305419896 ∧
    (Address.Address24 1193046).to_le_bytes.length = 4 := by
  refine ⟨?_, ?_, ?_⟩
  · exact (c9_address_roundtrip.1 4660 (by norm_num)).2.1
  · exact (c9_address_roundtrip.2.1 305419896 (by norm_num [w32])).2.2
  · exact (c9_address_roundtrip.2.2 1193046 (by norm_num [w32])).1

/-! ### Claim C5: data buffer length -/

theorem collectLines_length_inv :
    ∀ (lines : List (List Char)) (recs : List Record) (regs : List (Nat × Nat))
      (data : List Nat) (out : List Record × List (Nat × Nat) × List Nat),
      collectLines lines recs regs data = .ok out →
      data.length = (recs.map payloadLength).sum →
      out.2.2.length = (out.1.map payloadLength).sum
  | [], recs, regs, data, out, h, hinv => by
    simp only [collectLines] at h
    injection h with h
    subst h
    exact hinv
  | line :: rest, recs, regs, data, out, h, hinv => by
    simp only [collectLines] at h
    cases hp : parseFromStr line with
    | panic => rw [hp] at h; exact absurd h (by simp)
    | err e => rw [hp] at h; exact absurd h (by simp)
    | ok rec =>
      rw [hp] at h
      cases rec with
      | S1 d =>
        exact collectLines_length_inv rest _ _ _ out h
          (by simp [payloadLength, hinv])
      | S2 d =>
        exact collectLines_length_inv rest _ _ _ out h
          (by simp [payloadLength, hinv])
      | S3 d =>
        exact collectLines_length_inv rest _ _ _ out h
          (by simp [payloadLength, hinv])
      | S0 hd =>
        exact collectLines_length_inv rest _ _ _ out h (by simp [payloadLength, hinv])
      | S4 =>
        exact collectLines_length_inv rest _ _ _ out h (by simp [payloadLength, hinv])
      | S5 c =>
        exact collectLines_length_inv rest _ _ _ out h (by simp [payloadLength, hinv])
      | S6 c =>
        exact collectLines_length_inv rest _ _ _ out h (by simp [payloadLength, hinv])
      | S7 a =>
        exact collectLines_length_inv rest _ _ _ out h (by simp [payloadLength, hinv])
      | S8 a =>
        exact collectLines_length_inv rest _ _ _ out h (by simp [payloadLength, hinv])
      | S9 a =>
        exact collectLines_length_inv rest _ _ _ out h (by simp [payloadLength, hinv])

/-- C5: for every successful parse, the data buffer's length equals the sum
of the payload lengths of the `S1`/`S2`/`S3` records in the record sequence,
and `get_data_length` returns exactly the data buffer's length. -/
theorem c5_data_length (MAX : Nat) (lines : List (List Char)) (s : SRecord)
    (h : fromSrec MAX lines = .ok s) :
    s.data.length = (s.record.map payloadLength).sum ∧
    get_data_length s = s.data.length := by
  rw [fromSrec.eq_def] at h
  cases hc : collectLines lines [] [] [] with
  | panic => rw [hc] at h; exact absurd h (by simp)
  | err e => rw [hc] at h; exact absurd h (by simp)
  | ok out =>
    rw [hc] at h
    obtain ⟨recs, regs, data⟩ := out
    injection h with h
    subst h
    have := collectLines_length_inv lines [] [] [] (recs, regs, data) hc (by simp)
    exact ⟨this, rfl⟩

/-- Witness for C5 on a one-line image. -/
theorem c5_data_length_witness :
    sampleImage.data.length = (sampleImage.record.map payloadLength).sum ∧
    get_data_length sampleImage = sampleImage.data.length :=
  c5_data_length 8 ["S104000000FB".toList] sampleImage
    (by simp only [fromSrec, collectLines, parseFromStr, decodeFrom_eq]; rfl)

/-! ### Region-composer lemmas -/

theorem mergePass_nil (MAX : Nat) (acc : List (Nat × Nat)) :
    mergePass MAX acc [] = acc.reverse := by
  cases acc <;> rfl

theorem mergePass_empty_acc (MAX a s : Nat) (rest : List (Nat × Nat)) :
    mergePass MAX [] ((a, s) :: rest) = mergePass MAX [(a, s)] rest := rfl

theorem mergePass_step_fit (MAX la ls a s : Nat) (tl rest : List (Nat × Nat))
    (h1 : a ≤ (la + ls % w32) % w32)
    (h2 : sub32 ((la + ls % w32) % w32) la < MAX)
    (h3 : sub32 (max ((a + s % w32) % w32) ((la + ls % w32) % w32)) la ≤ MAX) :
    mergePass MAX ((la, ls) :: tl) ((a, s) :: rest) =
      mergePass MAX
        ((la, sub32 (max ((a + s % w32) % w32) ((la + ls % w32) % w32)) la) :: tl) rest := by
  simp only [mergePass]
  rw [if_pos ⟨h1, h2⟩, if_pos h3]

theorem mergePass_step_overflow (MAX la ls a s : Nat) (tl rest : List (Nat × Nat))
    (h1 : a ≤ (la + ls % w32) % w32)
    (h2 : sub32 ((la + ls % w32) % w32) la < MAX)
    (h3 : ¬ sub32 (max ((a + s % w32) % w32) ((la + ls % w32) % w32)) la ≤ MAX) :
    mergePass MAX ((la, ls) :: tl) ((a, s) :: rest) =
      mergePass MAX ((a, sub64 s (sub32 MAX (ls % w32))) :: (la, MAX) :: tl) rest := by
  simp only [mergePass]
  rw [if_pos ⟨h1, h2⟩, if_neg h3]

theorem mergePass_step_new (MAX la ls a s : Nat) (tl rest : List (Nat × Nat))
    (h : ¬(a ≤ (la + ls % w32) % w32 ∧ sub32 ((la + ls % w32) % w32) la < MAX)) :
    mergePass MAX ((la, ls) :: tl) ((a, s) :: rest) =
      mergePass MAX ((a, s) :: (la, ls) :: tl) rest := by
  simp only [mergePass]
  rw [if_neg h]

theorem splitGo_loop (MAX fuel addr size : Nat) (h : size % w32 > MAX) :
    splitGo MAX (fuel + 1) addr size =
      (Address.Address32 addr, MAX) :: splitGo MAX fuel ((addr + MAX) % w32) (size - MAX) := by
  simp only [splitGo]
  rw [if_pos h]

theorem splitGo_done (MAX fuel addr size : Nat) (h : ¬ size % w32 > MAX) (h2 : 0 < size) :
    splitGo MAX (fuel + 1) addr size = [(Address.Address32 addr, size)] := by
  simp only [splitGo]
  rw [if_neg h, if_pos h2]

theorem splitGo_sizes (MAX : Nat) :
    ∀ (fuel addr size : Nat), size < w32 →
      ∀ r ∈ splitGo MAX fuel addr size, r.2 ≤ MAX
  | 0, addr, size, _, r, hr => by simp [splitGo] at hr
  | fuel + 1, addr, size, hsz, r, hr => by
    by_cases h : size % w32 > MAX
    · rw [splitGo_loop MAX fuel addr size h] at hr
      rcases List.mem_cons.mp hr with hr | hr
      · subst hr; exact le_refl MAX
      · exact splitGo_sizes MAX fuel ((addr + MAX) % w32) (size - MAX) (by omega) r hr
    · by_cases h2 : 0 < size
      · rw [splitGo_done MAX fuel addr size h h2] at hr
        rcases List.mem_cons.mp hr with hr | hr
        · subst hr
          have : size % w32 = size := Nat.mod_eq_of_lt hsz
          omega
        · simp at hr
      · simp only [splitGo] at hr
        rw [if_neg h, if_neg h2] at hr
        simp at hr

theorem splitGo_addr32 (MAX : Nat) :
    ∀ (fuel addr size : Nat) (r : Address × Nat), r ∈ splitGo MAX fuel addr size →
      ∃ n, r.1 = Address.Address32 n
  | 0, addr, size, r, hr => by simp [splitGo] at hr
  | fuel + 1, addr, size, r, hr => by
    by_cases h : size % w32 > MAX
    · rw [splitGo_loop MAX fuel addr size h] at hr
      rcases List.mem_cons.mp hr with hr | hr
      · subst hr; exact ⟨addr, rfl⟩
      · exact splitGo_addr32 MAX fuel ((addr + MAX) % w32) (size - MAX) r hr
    · by_cases h2 : 0 < size
      · rw [splitGo_done MAX fuel addr size h h2] at hr
        rcases List.mem_cons.mp hr with hr | hr
        · subst hr; exact ⟨addr, rfl⟩
        · simp at hr
      · simp only [splitGo] at hr
        rw [if_neg h, if_neg h2] at hr
        simp at hr

theorem mem_foldl_append {α β : Type} (f : β → List α) :
    ∀ (l : List β) (init : List α) (r : α),
      r ∈ l.foldl (fun acc p => acc ++ f p) init ↔ r ∈ init ∨ ∃ p ∈ l, r ∈ f p
  | [], init, r => by simp
  | b :: bs, init, r => by
    rw [List.foldl_cons, mem_foldl_append f bs (init ++ f b) r]
    simp only [List.mem_append, List.mem_cons]
    constructor
    · rintro ((h | h) | ⟨p, hp, hrp⟩)
      · exact Or.inl h
      · exact Or.inr ⟨b, Or.inl rfl, h⟩
      · exact Or.inr ⟨p, Or.inr hp, hrp⟩
    · rintro (h | ⟨p, hp | hp, hrp⟩)
      · exact Or.inl (Or.inl h)
      · subst hp; exact Or.inl (Or.inr hrp)
      · exact Or.inr ⟨p, hp, hrp⟩

theorem sortSpans_mem (spans : List (Nat × Nat)) (p : Nat × Nat) :
    p ∈ sortSpans spans ↔ p ∈ spans :=
  (List.perm_insertionSort _ spans).mem_iff

theorem sortSpans_sorted (spans : List (Nat × Nat)) :
    List.Pairwise (fun x y : Nat × Nat => x.1 ≤ y.1) (sortSpans spans) :=
  List.sorted_insertionSort _ spans

/-- All sizes in the accumulator stay below `2^32` along the merge loop, for
sorted pending spans with in-range addresses and sizes.  The head of the
accumulator is the source's `merged.last_mut()`; the hypothesis on `acc.head?`
records that its address is in range and no larger than any pending span's
address (which sortedness maintains). -/
theorem mergePass_sizes (MAX : Nat) (hM : MAX < w32) :
    ∀ (pending acc : List (Nat × Nat)),
      List.Pairwise (fun x y : Nat × Nat => x.1 ≤ y.1) pending →
      (∀ p ∈ pending, p.1 < w32 ∧ p.2 < w32) →
      (∀ p ∈ acc, p.2 < w32) →
      (∀ x ∈ acc.head?, x.1 < w32 ∧ ∀ p ∈ pending, x.1 ≤ p.1) →
      ∀ r ∈ mergePass MAX acc pending, r.2 < w32
  | [], acc, _, _, hacc, _, r, hr => by
    rw [mergePass_nil] at hr
    exact hacc r (List.mem_reverse.mp hr)
  | (a, s) :: rest, [], hpair, hpend, _, _, r, hr => by
    rw [mergePass_empty_acc] at hr
    refine mergePass_sizes MAX hM rest [(a, s)] hpair.of_cons
      (fun p hp => hpend p (List.mem_cons_of_mem _ hp))
      (fun p hp => by
        rcases List.mem_singleton.mp hp with rfl
        exact (hpend (a, s) (List.mem_cons_self _ _)).2)
      (fun x hx => by
        rcases Option.mem_some_iff.mp hx with rfl
        exact ⟨(hpend (a, s) (List.mem_cons_self _ _)).1,
          fun p hp => List.rel_of_pairwise_cons hpair hp⟩)
      r hr
  | (a, s) :: rest, (la, ls) :: tl, hpair, hpend, hacc, hhead, r, hr => by
    have hla := hhead (la, ls) (Option.mem_some_iff.mpr rfl)
    have hls : ls < w32 := hacc (la, ls) (List.mem_cons_self _ _)
    have ha : a < w32 := (hpend (a, s) (List.mem_cons_self _ _)).1
    have hs : s < w32 := (hpend (a, s) (List.mem_cons_self _ _)).2
    have hlaa : la ≤ a := hla.2 (a, s) (List.mem_cons_self _ _)
    have hpend' : ∀ p ∈ rest, p.1 < w32 ∧ p.2 < w32 :=
      fun p hp => hpend p (List.mem_cons_of_mem _ hp)
    have hrest_le : ∀ p ∈ rest, a ≤ p.1 := fun p hp => List.rel_of_pairwise_cons hpair hp
    by_cases hcond : a ≤ (la + ls % w32) % w32 ∧ sub32 ((la + ls % w32) % w32) la < MAX
    · by_cases hfit : sub32 (max ((a + s % w32) % w32) ((la + ls % w32) % w32)) la ≤ MAX
      · rw [mergePass_step_fit MAX la ls a s tl rest hcond.1 hcond.2 hfit] at hr
        refine mergePass_sizes MAX hM rest _ hpair.of_cons hpend'
          (fun p hp => ?_)
          (fun x hx => by
            rcases Option.mem_some_iff.mp hx with rfl
            exact ⟨hla.1, fun p hp => le_trans hlaa (hrest_le p hp)⟩)
          r hr
        rcases List.mem_cons.mp hp with rfl | hp
        · exact Nat.mod_lt _ (by norm_num [w32])
        · exact hacc p (List.mem_cons_of_mem _ hp)
      · rw [mergePass_step_overflow MAX la ls a s tl rest hcond.1 hcond.2 hfit] at hr
        have hknew : sub64 s (sub32 MAX (ls % w32)) < w32 := by
          obtain ⟨hc1, hc2⟩ := hcond
          rw [Nat.mod_eq_of_lt hls] at hc1 hc2 ⊢
          rw [Nat.mod_eq_of_lt hs] at hfit
          unfold sub32 at hc2 hfit ⊢
          unfold sub64
          unfold w32 at *
          unfold w64
          omega
        refine mergePass_sizes MAX hM rest _ hpair.of_cons hpend'
          (fun p hp => ?_)
          (fun x hx => by
            rcases Option.mem_some_iff.mp hx with rfl
            exact ⟨ha, hrest_le⟩)
          r hr
        rcases List.mem_cons.mp hp with rfl | hp
        · exact hknew
        · rcases List.mem_cons.mp hp with rfl | hp
          · exact hM
          · exact hacc p (List.mem_cons_of_mem _ hp)
    · rw [mergePass_step_new MAX la ls a s tl rest hcond] at hr
      refine mergePass_sizes MAX hM rest _ hpair.of_cons hpend'
        (fun p hp => ?_)
        (fun x hx => by
          rcases Option.mem_some_iff.mp hx with rfl
          exact ⟨ha, hrest_le⟩)
        r hr
      rcases List.mem_cons.mp hp with rfl | hp
      · exact hs
      · rcases List.mem_cons.mp hp with rfl | hp
        · exact hls
        · exact hacc p (List.mem_cons_of_mem _ hp)

/-! ### Claims about the region composer -/

/-- C1 (counterexample): the spans (0,20) and (5,1) with `MAX = 10` produce
the layout [(0,10), (10,10), (5,1)], which is neither in non-decreasing
address order nor non-overlapping — refuting the claimed invariant. -/
theorem c1_contract_violated :
    buildLayout [(0, 20), (5, 1)] 10 =
      [(.Address32 0, 10), (.Address32 10, 10), (.Address32 5, 1)] ∧
    ¬ specLayoutContract [(0, 20), (5, 1)] 10 := by
  constructor
  · rfl
  · unfold specLayoutContract regionsOrdered
    intro hcontract
    obtain ⟨hord, -, -⟩ := hcontract
    have heq : buildLayout [(0, 20), (5, 1)] 10 =
        [(.Address32 0, 10), (.Address32 10, 10), (.Address32 5, 1)] := rfl
    rw [heq] at hord
    rcases List.chain'_cons.mp hord with ⟨-, h2⟩
    rcases List.chain'_cons.mp h2 with ⟨h3, -⟩
    exact absurd h3 (by decide)

/-- C1 (amended): every region emitted by the region composer has length at
most `max_region_size` (given a positive bound and machine-range spans), but
the regions are not in general ordered or non-overlapping.  For `MAX = 0` the
source's split loop never terminates, so only `0 < MAX` is meaningful. -/
theorem c1_region_size_bounded (spans : List (Nat × Nat)) (MAX : Nat)
    (_hM0 : 0 < MAX) (hM : MAX < w32)
    (hspans : ∀ p ∈ spans, p.1 < w32 ∧ p.2 < w32) :
    ∀ r ∈ buildLayout spans MAX, r.2 ≤ MAX := by
  intro r hr
  unfold buildLayout at hr
  rw [mem_foldl_append] at hr
  rcases hr with hr | ⟨p, hp, hrp⟩
  · simp at hr
  · have hmerged : p.2 < w32 :=
      mergePass_sizes MAX hM (sortSpans spans) []
        (sortSpans_sorted spans)
        (fun q hq => hspans q ((sortSpans_mem spans q).mp hq))
        (fun q hq => by simp at hq)
        (fun x hx => by simp at hx)
        p hp
    unfold splitChunks at hrp
    exact splitGo_sizes MAX (p.2 + 1) p.1 p.2 hmerged r hrp

/-- Witness for C1 (amended) on the single span (3,4) with `MAX = 5`. -/
theorem c1_region_size_bounded_witness :
    ((Address.Address32 3, 4) : Address × Nat).2 ≤ 5 :=
  c1_region_size_bounded [(3, 4)] 5 (by norm_num) (by norm_num [w32])
    (by decide) (Address.Address32 3, 4) (by decide)

/-- C2 (counterexample): with `max_region_size = 12` the spans (0,10) and
(10,5) produce the regions (0,12) and (10,3) — the second region opens at the
incoming span's address 10, not at 12 as the claim states (and the two
regions overlap). -/
theorem c2_capped_merge_false :
    buildLayout [(0, 10), (10, 5)] 12 = [(.Address32 0, 12), (.Address32 10, 3)] ∧
    buildLayout [(0, 10), (10, 5)] 12 ≠ [(.Address32 0, 12), (.Address32 12, 3)] := by
  constructor
  · rfl
  · decide

/-- C2 (amended): spans (0,10) and (10,5) with `max_region_size ≥ 15` merge
into the single region (0,15); with `max_region_size = 12` they produce the
regions (0,12) and (10,3). -/
theorem c2_merge_spans (MAX : Nat) (h15 : 15 ≤ MAX) (_hM : MAX < w32) :
    buildLayout [(0, 10), (10, 5)] MAX = [(.Address32 0, 15)] ∧
    buildLayout [(0, 10), (10, 5)] 12 = [(.Address32 0, 12), (.Address32 10, 3)] := by
  constructor
  · have hsort : sortSpans [(0, 10), (10, 5)] = [(0, 10), (10, 5)] := rfl
    have hmerge : mergePass MAX [] [(0, 10), (10, 5)] = [(0, 15)] := by
      rw [mergePass_empty_acc,
        mergePass_step_fit MAX 0 10 10 5 [] []
          (by norm_num [w32]) (by simp only [sub32, w32]; norm_num; omega)
          (by simp only [sub32, w32]; norm_num; omega),
        mergePass_nil]
      norm_num [sub32, w32]
    unfold buildLayout
    rw [hsort, hmerge]
    rw [List.foldl_cons, List.foldl_nil, List.nil_append]
    unfold splitChunks
    rw [splitGo_done MAX 15 0 15 (by simp only [w32]; norm_num; omega) (by norm_num)]
  · rfl

/-- Witness for C2 (amended) at `MAX = 20`. -/
theorem c2_merge_spans_witness :
    buildLayout [(0, 10), (10, 5)] 20 = [(.Address32 0, 15)] :=
  (c2_merge_spans 20 (by norm_num) (by norm_num [w32])).1

/-- C6 (counterexample): with `max_region_size = 3` the single span
(0, 3 + 10) is split into five chunks, not the two regions the claim
describes; the claim only holds once `max_region_size ≥ 10`. -/
theorem c6_small_max_false :
    buildLayout [(0, 3 + 10)] 3 ≠ [(.Address32 0, 3), (.Address32 3, 10)] ∧
    buildLayout [(0, 3 + 10)] 3 =
      [(.Address32 0, 3), (.Address32 3, 3), (.Address32 6, 3), (.Address32 9, 3),
        (.Address32 12, 1)] := by
  constructor
  · decide
  · rfl

/-- C6 (amended): the single span (0, MAX + 10) with `10 ≤ MAX` (and the sum
in `u32` range) yields exactly the regions (0, MAX) and (MAX, 10); and every
region the split pass emits carries a 32-bit (`Address32`) address. -/
theorem c6_split_span (MAX : Nat) (h10 : 10 ≤ MAX) (hM : MAX + 10 < w32) :
    buildLayout [(0, MAX + 10)] MAX = [(.Address32 0, MAX), (.Address32 MAX, 10)] ∧
    ∀ (spans : List (Nat × Nat)) (M : Nat) (r : Address × Nat),
      r ∈ buildLayout spans M → ∃ n, r.1 = Address.Address32 n := by
  constructor
  · have hsort : sortSpans [(0, MAX + 10)] = [(0, MAX + 10)] := rfl
    have hmerge : mergePass MAX [] [(0, MAX + 10)] = [(0, MAX + 10)] := by
      rw [mergePass_empty_acc, mergePass_nil]
      rfl
    unfold buildLayout
    rw [hsort, hmerge]
    rw [List.foldl_cons, List.foldl_nil, List.nil_append]
    unfold splitChunks
    rw [splitGo_loop MAX (MAX + 10) 0 (MAX + 10)
      (by rw [Nat.mod_eq_of_lt hM]; omega)]
    rw [show (0 + MAX) % w32 = MAX from by rw [Nat.zero_add, Nat.mod_eq_of_lt (by omega)]]
    rw [show MAX + 10 - MAX = 10 from by omega]
    rw [show MAX + 10 = (MAX + 9) + 1 from by omega]
    rw [splitGo_done MAX (MAX + 9) MAX 10
      (by rw [Nat.mod_eq_of_lt (show 10 < w32 by norm_num [w32])]; omega) (by norm_num)]
  · intro spans M r hr
    unfold buildLayout at hr
    rw [mem_foldl_append] at hr
    rcases hr with hr | ⟨p, _, hrp⟩
    · simp at hr
    · unfold splitChunks at hrp
      exact splitGo_addr32 M (p.2 + 1) p.1 p.2 r hrp

/-- Witness for C6 (amended) at `MAX = 10`. -/
theorem c6_split_span_witness :
    buildLayout [(0, 10 + 10)] 10 = [(.Address32 0, 10), (.Address32 10, 10)] :=
  (c6_split_span 10 (by norm_num) (by norm_num [w32])).1

end Srec
